import Mathlib

/-!
Verification of the value-normalization and cursor-based polling core of the
`rows` command-line tool (src/src/main.rs).  The Rust functions
`to_json_value`, `to_csv_value`, the cursor update of the tail loops, the
seeding query conversion, and the emission paths are shallowly embedded as
executable Lean definitions; machine integers are modelled as `Nat`/`Int`
with explicit range hypotheses where the width matters.
-/

namespace Rows

/-- Abstract model of a Rust `f64` restricted to the operations the program
performs on it: classification as finite vs NaN/infinite (used by
`serde_json::Number::from_f64`, which returns `None` for non-finite inputs)
and rendering to text (`Display` for CSV, ryu for JSON serialization).
No float arithmetic occurs in the program, so the payload of a finite float
is just its two textual renderings. -/
inductive F64 where
  | nan : F64
  | inf (neg : Bool) : F64
  | finite (ryu : String) (disp : String) : F64
deriving DecidableEq

/-- Rust `f64::is_finite` as used by `serde_json::Number::from_f64`. -/
def F64.isFinite : F64 → Bool
  | .finite _ _ => true
  | _ => false

/-- Rust `Display` rendering of an `f64` (`num.to_string()`): NaN prints
 as "NaN", infinities as "inf" and "-inf". -/
def F64.display : F64 → String
  | .nan => "NaN"
  | .inf false => "inf"
  | .inf true => "-inf"
  | .finite _ d => d

/-- Model of `mysql::Value` (the tagged union of native column values).
`Bytes` carries raw bytes as naturals below 256; `Int` is an `i64`,
`UInt` a `u64`, `Date` carries (year, month, day, hour, minute, second,
microsecond) as in `mysql::Value::Date(u16,u8,u8,u8,u8,u8,u32)`, `Time`
carries (is_neg, days, hours, minutes, seconds, microseconds). -/
inductive Value where
  | NULL : Value
  | Bytes (bytes : List Nat) : Value
  | Int (n : Int) : Value
  | UInt (n : Nat) : Value
  | Float (x : F64) : Value
  | Date (year month day hour minute second micro : Nat) : Value
  | Time (isNeg : Bool) (days hours minutes seconds micros : Nat) : Value
deriving DecidableEq

/-- Decimal digits of `n`, most significant first, computed with explicit
fuel (`fuel` bounds the value, one division by 10 per step); mirrors the
digit loop of Rust's integer `to_string`. -/
def natDecDigits : Nat → Nat → List Nat
  | 0, _ => []
  | fuel + 1, n => if n < 10 then [n] else natDecDigits fuel (n / 10) ++ [n % 10]

/-- Decimal digit list of `n` (most significant first). -/
def natDigits (n : Nat) : List Nat := natDecDigits (n + 1) n

/-- Numeric value of a big-endian digit list. -/
def digitsVal (ds : List Nat) : Nat := ds.foldl (fun a d => a * 10 + d) 0

/-- ASCII digit character for a numeric digit. -/
def digitChar (d : Nat) : Char := Char.ofNat (48 + d)

/-- String made of the given decimal digits. -/
def strOfDigits (ds : List Nat) : String := String.mk (ds.map digitChar)

/-- Rust `u64::to_string` (decimal, no leading zeros, "0" for zero). -/
def natDecStr (n : Nat) : String := strOfDigits (natDigits n)

/-- Rust `i64::to_string` (minus sign followed by the decimal digits of the
absolute value). -/
def intDecStr (n : Int) : String :=
  if n < 0 then "-" ++ natDecStr (-n).toNat else natDecStr n.toNat

/-- Zero-pad a digit list on the left to width `w`. -/
def padDigits (w : Nat) (ds : List Nat) : List Nat :=
  List.replicate (w - ds.length) 0 ++ ds

/-- Decimal rendering of `n` zero-padded to at least `w` digits. -/
def padNat (w n : Nat) : String := strOfDigits (padDigits w (natDigits n))

/-- Fractional-second suffix as printed by chrono's auto-precision
nanosecond item for a nanosecond value of `u * 1000` (microseconds `u`):
empty when zero, 3 digits when a whole millisecond, else 6 digits. -/
def nanoFrac (u : Nat) : String :=
  if u = 0 then ""
  else if u % 1000 = 0 then "." ++ padNat 3 (u / 1000)
  else "." ++ padNat 6 u

/-- Timezone suffix `+HH:MM` / `-HH:MM` printed by chrono's colon offset
item for a fixed offset of `off` seconds east. -/
def offsetColon (off : Int) : String :=
  let a := off.natAbs
  (if off < 0 then "-" else "+") ++ padNat 2 (a / 3600) ++ ":" ++ padNat 2 (a % 3600 / 60)

/-- Gregorian leap-year test (as in chrono's calendar arithmetic). -/
def isLeapYear (y : Nat) : Bool :=
  (y % 4 = 0 && y % 100 ≠ 0) || y % 400 = 0

/-- Number of days of month `m` of year `y`. -/
def daysInMonth (y m : Nat) : Nat :=
  if m = 2 then (if isLeapYear y then 29 else 28)
  else if m = 4 ∨ m = 6 ∨ m = 9 ∨ m = 11 then 30
  else 31

/-- Validity of the calendar/clock components as accepted by chrono's
`ymd`/`and_hms_micro` (microseconds up to 1999999 encode leap seconds). -/
def dateTimeValid (y mo d h mi s us : Nat) : Bool :=
  1 ≤ mo && mo ≤ 12 && 1 ≤ d && d ≤ daysInMonth y mo &&
  h < 24 && mi < 60 && s < 60 && us < 2000000

/-- RFC 3339 rendering of a naive datetime with a fixed offset, as produced
by chrono's `DateTime::to_rfc3339` for `FixedOffset` (local components
printed directly, auto-precision fraction, colon offset; a leap second
adds one to the printed second). -/
def rfc3339 (y mo d h mi s us : Nat) (off : Int) : String :=
  padNat 4 y ++ "-" ++ padNat 2 mo ++ "-" ++ padNat 2 d ++ "T" ++
  padNat 2 h ++ ":" ++ padNat 2 mi ++ ":" ++ padNat 2 (s + us / 1000000) ++
  nanoFrac (us % 1000000) ++ offsetColon off

/-- Total signed microseconds of a `mysql::Value::Time` payload, as summed
by the `chrono::Duration` additions in the source (negated as a whole when
`is_neg` holds). -/
def durationMicros (isNeg : Bool) (days hours minutes seconds micros : Nat) : Int :=
  let total : Int := (days : Int) * 86400000000 + (hours : Int) * 3600000000 +
    (minutes : Int) * 60000000 + (seconds : Int) * 1000000 + (micros : Int)
  if isNeg then -total else total

/-- Rendering of `chrono::Duration`'s `Display` (ISO-8601-like `PnDTnS`
with auto-precision fraction) for a total of `m` microseconds. -/
def durationDisplay (m : Int) : String :=
  let sign := if m < 0 then "-" else ""
  let a := m.natAbs
  let days := a / 86400000000
  let secs := a % 86400000000 / 1000000
  let us := a % 1000000
  let dpart := if days = 0 then "" else natDecStr days ++ "D"
  let tpart :=
    if secs ≠ 0 ∨ us ≠ 0 ∨ days = 0 then "T" ++ natDecStr secs ++ nanoFrac us ++ "S"
    else ""
  sign ++ "P" ++ dpart ++ tpart

/-- Standard base64 alphabet (as in the `base64` crate's STANDARD config). -/
def b64Alphabet : List Char :=
  ['A', 'B', 'C', 'D', 'E', 'F', 'G', 'H', 'I', 'J', 'K', 'L', 'M',
   'N', 'O', 'P', 'Q', 'R', 'S', 'T', 'U', 'V', 'W', 'X', 'Y', 'Z',
   'a', 'b', 'c', 'd', 'e', 'f', 'g', 'h', 'i', 'j', 'k', 'l', 'm',
   'n', 'o', 'p', 'q', 'r', 's', 't', 'u', 'v', 'w', 'x', 'y', 'z',
   '0', '1', '2', '3', '4', '5', '6', '7', '8', '9', '+', '/']

/-- Character for a six-bit group. -/
def b64Char (i : Nat) : Char := b64Alphabet.getD i '='

/-- Base64 encoding of a byte list, three bytes to four characters, with
`=` padding for a trailing group of one or two bytes. -/
def encodeChunks : List Nat → List Char
  | [] => []
  | [b1] => [b64Char (b1 / 4), b64Char (b1 % 4 * 16), '=', '=']
  | [b1, b2] => [b64Char (b1 / 4), b64Char (b1 % 4 * 16 + b2 / 16), b64Char (b2 % 16 * 4), '=']
  | b1 :: b2 :: b3 :: rest =>
      b64Char (b1 / 4) :: b64Char (b1 % 4 * 16 + b2 / 16) ::
      b64Char (b2 % 16 * 4 + b3 / 64) :: b64Char (b3 % 64) :: encodeChunks rest

/-- Model of `base64::encode` (standard alphabet, padded). -/
def base64_encode (bs : List Nat) : String := String.mk (encodeChunks bs)

/-- Position of a character in a list, or `none`. -/
def b64IndexAux : List Char → Nat → Char → Option Nat
  | [], _, _ => none
  | a :: rest, i, c => if a = c then some i else b64IndexAux rest (i + 1) c

/-- Six-bit value of a base64 alphabet character. -/
def b64Index (c : Char) : Option Nat := b64IndexAux b64Alphabet 0 c

/-- Base64 decoding of a character list (groups of four, padding allowed
only in the final group). -/
def decodeChunks : List Char → Option (List Nat)
  | [] => some []
  | c1 :: c2 :: c3 :: c4 :: rest =>
      match b64Index c1, b64Index c2 with
      | some i1, some i2 =>
          if c3 = '=' then
            if c4 = '=' ∧ rest = [] then some [i1 * 4 + i2 / 16] else none
          else
            match b64Index c3 with
            | some i3 =>
                if c4 = '=' then
                  if rest = [] then some [i1 * 4 + i2 / 16, i2 % 16 * 16 + i3 / 4] else none
                else
                  match b64Index c4 with
                  | some i4 =>
                      match decodeChunks rest with
                      | some bs =>
                          some ((i1 * 4 + i2 / 16) :: (i2 % 16 * 16 + i3 / 4) ::
                                (i3 % 4 * 64 + i4) :: bs)
                      | none => none
                  | none => none
            | none => none
      | _, _ => none
  | _ => none

/-- Model of `base64::decode` for a standard padded string. -/
def base64_decode (s : String) : Option (List Nat) := decodeChunks s.data

/-- State of the byte-at-a-time UTF-8 validator/decoder: number of pending
continuation bytes, accumulated code point bits, the admissible range for
the next byte, and the (reversed) decoded output. -/
structure Utf8State where
  pending : Nat
  acc : Nat
  lo : Nat
  hi : Nat
  out : List Char
deriving DecidableEq

/-- One step of UTF-8 validation, mirroring Rust's `str::from_utf8` byte
classification: ASCII passes through; leading bytes C2-DF, E0-EF, F0-F4
open multi-byte sequences with the standard restricted ranges for the
second byte (E0: A0-BF, ED: 80-9F excluding surrogates, F0: 90-BF,
F4: 80-8F); anything else is invalid. -/
def utf8Step (st : Utf8State) (b : Nat) : Option Utf8State :=
  if st.pending = 0 then
    if b < 128 then some { pending := 0, acc := 0, lo := 0, hi := 0, out := Char.ofNat b :: st.out }
    else if b < 194 then none
    else if b ≤ 223 then some { pending := 1, acc := b - 192, lo := 128, hi := 191, out := st.out }
    else if b ≤ 239 then
      some { pending := 2, acc := b - 224,
             lo := if b = 224 then 160 else 128,
             hi := if b = 237 then 159 else 191, out := st.out }
    else if b ≤ 244 then
      some { pending := 3, acc := b - 240,
             lo := if b = 240 then 144 else 128,
             hi := if b = 244 then 143 else 191, out := st.out }
    else none
  else
    if st.lo ≤ b ∧ b ≤ st.hi then
      if st.pending = 1 then
        some { pending := 0, acc := 0, lo := 0, hi := 0,
               out := Char.ofNat (st.acc * 64 + (b - 128)) :: st.out }
      else
        some { pending := st.pending - 1, acc := st.acc * 64 + (b - 128),
               lo := 128, hi := 191, out := st.out }
    else none

/-- Run the UTF-8 validator over a byte list. -/
def utf8DecodeAux : Utf8State → List Nat → Option (List Char)
  | st, [] => if st.pending = 0 then some st.out.reverse else none
  | st, b :: rest =>
      match utf8Step st b with
      | some st' => utf8DecodeAux st' rest
      | none => none

/-- Model of Rust's `str::from_utf8`: the decoded string on success,
`none` on any invalid byte sequence. -/
def from_utf8 (bs : List Nat) : Option String :=
  match utf8DecodeAux ⟨0, 0, 0, 0, []⟩ bs with
  | some cs => some (String.mk cs)
  | none => none

/-- Model of `serde_json::Number`: an exactly stored unsigned or signed
64-bit integer, or a float. -/
inductive JNumber where
  | posInt (n : Nat) : JNumber
  | negInt (n : Int) : JNumber
  | float (x : F64) : JNumber
deriving DecidableEq

/-- Model of `serde_json::Number::from(i64)`: negative values are stored
signed, non-negative ones unsigned; in both cases exactly. -/
def JNumber.from_i64 (n : Int) : JNumber :=
  if n < 0 then .negInt n else .posInt n.toNat

/-- Model of `serde_json::Number::from(u64)`. -/
def JNumber.from_u64 (n : Nat) : JNumber := .posInt n

/-- Model of `serde_json::Number::from_f64`: `none` for NaN or infinite. -/
def JNumber.from_f64 (x : F64) : Option JNumber :=
  if x.isFinite then some (.float x) else none

/-- Exact integer content of a JSON number (`none` for the float form). -/
def JNumber.toInt : JNumber → Option Int
  | .posInt n => some (n : Int)
  | .negInt n => some n
  | .float _ => none

/-- Model of the `serde_json::Value` shapes constructed by `to_json_value`
(the function only builds Null, String and Number). -/
inductive JVal where
  | null : JVal
  | str (s : String) : JVal
  | num (n : JNumber) : JVal
deriving DecidableEq

/-- Panic message of the `.expect(..)` on a DATETIME value with no
timezone option. -/
def tzErrMsg : String :=
  "DATETIME-like column requires a timezone offset specified with --timezone"

/-- Panic message of `.unwrap()` on `None` (non-finite float to JSON). -/
def unwrapNoneMsg : String := "called Option::unwrap on a None value"

/-- Panic message of chrono's `ymd`/`and_hms_micro` on invalid components. -/
def invalidDateMsg : String := "invalid or out-of-range datetime"

/-- Shallow embedding of `to_json_value` (src/src/main.rs lines 18-46);
panics are modelled as `Except.error`. -/
def to_json_value (val : Value) (tz : Option Int) : Except String JVal :=
  match val with
  | .NULL => .ok .null
  | .Bytes bytes =>
      match from_utf8 bytes with
      | some s => .ok (.str s)
      | none => .ok (.str (base64_encode bytes))
  | .Int n => .ok (.num (JNumber.from_i64 n))
  | .UInt n => .ok (.num (JNumber.from_u64 n))
  | .Float x =>
      match JNumber.from_f64 x with
      | some j => .ok (.num j)
      | none => .error unwrapNoneMsg
  | .Date y mo d h mi s us =>
      match tz with
      | none => .error tzErrMsg
      | some off =>
          if dateTimeValid y mo d h mi s us then .ok (.str (rfc3339 y mo d h mi s us off))
          else .error invalidDateMsg
  | .Time isNeg days hours minutes seconds micros =>
      .ok (.str (durationDisplay (durationMicros isNeg days hours minutes seconds micros)))

/-- Shallow embedding of `to_csv_value` (src/src/main.rs lines 48-76);
panics are modelled as `Except.error`. -/
def to_csv_value (val : Value) (tz : Option Int) : Except String String :=
  match val with
  | .NULL => .ok ""
  | .Bytes bytes =>
      match from_utf8 bytes with
      | some s => .ok s
      | none => .ok (base64_encode bytes)
  | .Int n => .ok (intDecStr n)
  | .UInt n => .ok (natDecStr n)
  | .Float x => .ok x.display
  | .Date y mo d h mi s us =>
      match tz with
      | none => .error tzErrMsg
      | some off =>
          if dateTimeValid y mo d h mi s us then .ok (rfc3339 y mo d h mi s us off)
          else .error invalidDateMsg
  | .Time isNeg days hours minutes seconds micros =>
      .ok (durationDisplay (durationMicros isNeg days hours minutes seconds micros))

/-- Lower-case hexadecimal digit (serde_json's escape table). -/
def hexDigit (n : Nat) : Char :=
  if n < 10 then Char.ofNat (48 + n) else Char.ofNat (87 + n)

/-- Escaping of one character inside a JSON string literal, as performed by
serde_json's compact serializer: quote and backslash are escaped, the named
control escapes are used for 0x08, 0x09, 0x0A, 0x0C, 0x0D, the other
control characters get a `\u00XX` escape, everything else passes through. -/
def escapeChar (c : Char) : String :=
  if c = '"' then "\\\""
  else if c = '\\' then "\\\\"
  else if c.toNat = 8 then "\\b"
  else if c.toNat = 9 then "\\t"
  else if c.toNat = 10 then "\\n"
  else if c.toNat = 12 then "\\f"
  else if c.toNat = 13 then "\\r"
  else if c.toNat < 32 then "\\u00" ++ String.mk [hexDigit (c.toNat / 16), hexDigit (c.toNat % 16)]
  else String.mk [c]

/-- JSON string-literal escaping of a whole string. -/
def escapeString (s : String) : String := String.join (s.data.map escapeChar)

/-- Quoted JSON string literal. -/
def quoteString (s : String) : String := "\"" ++ escapeString s ++ "\""

/-- Compact serialization of a JSON number (serde_json: integers in
decimal, floats via ryu). -/
def serializeNumber : JNumber → String
  | .posInt n => natDecStr n
  | .negInt n => intDecStr n
  | .float (.finite r _) => r
  | .float _ => "null"

/-- Compact serialization of a scalar JSON value. -/
def serializeJVal : JVal → String
  | .null => "null"
  | .str s => quoteString s
  | .num n => serializeNumber n

/-- Compact serialization of a JSON object from its entry list, as
`serde_json::to_writer` emits it (no whitespace). -/
def serializeObj (entries : List (String × JVal)) : String :=
  "\x7b" ++
  String.intercalate "," (entries.map (fun e => quoteString e.1 ++ ":" ++ serializeJVal e.2)) ++
  "\x7d"

/-- Modelled from the spec: insertion of one key into the row object map.
The row object is a `serde_json::Map<String, Value>`; whether that map
preserves insertion order is decided by the crate-feature selection in the
build manifest, which is not under src/.  The spec fixes the behavior:
"Object keys follow column order", so the map is modelled as an
insertion-order-preserving association list (inserting an existing key
overwrites in place, a new key is appended). -/
def mapInsert : List (String × JVal) → String → JVal → List (String × JVal)
  | [], k, v => [(k, v)]
  | (k', v') :: rest, k, v =>
      if k' = k then (k', v) :: rest else (k', v') :: mapInsert rest k v

/-- Modelled from the spec: collecting an iterator of key-value pairs into
the row object map (sequential insertion, see `mapInsert`). -/
def mapCollect (pairs : List (String × JVal)) : List (String × JVal) :=
  pairs.foldl (fun m e => mapInsert m e.1 e.2) []

/-- One row's (column name, JSON value) pairs in column order, mirroring
the `column_names.iter().map(..)` iterator feeding the map collect in the
JSON emission paths (a failing conversion aborts). -/
def rowPairs (columnNames : List String) (row : String → Value) (tz : Option Int) :
    Except String (List (String × JVal)) :=
  match columnNames with
  | [] => .ok []
  | c :: rest =>
      match to_json_value (row c) tz with
      | .error e => .error e
      | .ok v =>
          match rowPairs rest row tz with
          | .error e => .error e
          | .ok tail => .ok ((c, v) :: tail)

/-- The row object map built in the JSON emission paths. -/
def renderRowJson (columnNames : List String) (row : String → Value) (tz : Option Int) :
    Except String (List (String × JVal)) :=
  match rowPairs columnNames row tz with
  | .error e => .error e
  | .ok pairs => .ok (mapCollect pairs)

/-- One emitted JSON line: the serialized row object followed by the
newline byte written right after it. -/
def emitLineJson (columnNames : List String) (row : String → Value) (tz : Option Int) :
    Except String String :=
  match renderRowJson columnNames row tz with
  | .error e => .error e
  | .ok entries => .ok (serializeObj entries ++ "\n")

/-- One row's CSV cells in column order, mirroring the
`column_names.iter().map(..)` iterator feeding `write_record`. -/
def renderRowCsv (columnNames : List String) (row : String → Value) (tz : Option Int) :
    Except String (List String) :=
  match columnNames with
  | [] => .ok []
  | c :: rest =>
      match to_csv_value (row c) tz with
      | .error e => .error e
      | .ok v =>
          match renderRowCsv rest row tz with
          | .error e => .error e
          | .ok tail => .ok (v :: tail)

/-- Cursor update performed per row in the tail loops:
`if id > last_id then last_id = id` (src/src/main.rs lines 219-222,
236-239, 256-259). -/
def observe (lastId candidate : Nat) : Nat :=
  if candidate > lastId then candidate else lastId

/-- Cursor after processing the order-column values of one poll's rows. -/
def pollFold (c : Nat) (ids : List Nat) : Nat := ids.foldl observe c

/-- Cursor value before iteration `n` of the polling loop, for a database
modelled as a function from the cursor parameter to the returned rows'
order-column values. -/
def cursorSeq (db : Nat → List Nat) (seed : Nat) : Nat → Nat
  | 0 => seed
  | n + 1 => pollFold (cursorSeq db seed n) (db (cursorSeq db seed n))

/-- Parse the digits of a decimal `u32` string with overflow check,
as Rust's `u32::from_str` does. -/
def parseU32Aux : List Char → Nat → Option Nat
  | [], acc => some acc
  | c :: rest, acc =>
      if 48 ≤ c.toNat ∧ c.toNat ≤ 57 then
        let acc' := acc * 10 + (c.toNat - 48)
        if acc' ≤ 4294967295 then parseU32Aux rest acc' else none
      else none

/-- Model of parsing a `u32` from a textual cell. -/
def parseU32 (s : String) : Option Nat :=
  match s.data with
  | [] => none
  | cs => parseU32Aux cs 0

/-- Model of the mysql crate's `from_value::<u32>` conversion used by
`row.get`: NULL and non-numeric variants fail, integers must be in the
`u32` range, textual cells are parsed as decimal. -/
def rowGetU32 : Value → Option Nat
  | .NULL => none
  | .Int n => if 0 ≤ n ∧ n ≤ 4294967295 then some n.toNat else none
  | .UInt n => if n ≤ 4294967295 then some n else none
  | .Bytes bs =>
      match from_utf8 bs with
      | some s => parseU32 s
      | none => none
  | _ => none

/-- Panic message of a failed `u32` conversion in `row.get(..)`. -/
def convErrMsg : String := "could not convert the value to u32"

/-- Order-column value of a row (`row.get::<u32>(column).unwrap()`),
with the conversion panic modelled as an error. -/
def getId (column : String) (row : String → Value) : Except String Nat :=
  match rowGetU32 (row column) with
  | some n => .ok n
  | none => .error convErrMsg

/-- Seeding step of tail mode: convert the `max(column)` aggregate value
into the `u32` cursor (src/src/main.rs lines 195-199); a NULL aggregate
(empty table) fails the conversion. -/
def tailSeed (maxVal : Value) : Except String Nat :=
  match rowGetU32 maxVal with
  | some n => .ok n
  | none => .error convErrMsg

/-- One record written through the CSV writer, labelled by the program
point that wrote it: the header write or a data-row write. -/
inductive CsvEvent where
  | headerRec (cells : List String) : CsvEvent
  | dataRec (cells : List String) : CsvEvent
deriving DecidableEq

/-- Whether a CSV event is the header write. -/
def CsvEvent.isHeader : CsvEvent → Bool
  | .headerRec _ => true
  | .dataRec _ => false

/-- Processing of one result set's rows in CSV tail mode: each row is
rendered against `columnNames` and written, then the cursor is advanced
from the row's order-column value. -/
def csvRows (columnNames : List String) (column : String) (tz : Option Int) :
    Nat → List (String → Value) → Except String (List CsvEvent × Nat)
  | c, [] => .ok ([], c)
  | c, row :: rest =>
      match renderRowCsv columnNames row tz with
      | .error e => .error e
      | .ok cells =>
          match getId column row with
          | .error e => .error e
          | .ok id =>
              match csvRows columnNames column tz (observe c id) rest with
              | .error e => .error e
              | .ok r => .ok (.dataRec cells :: r.1, r.2)

/-- The CSV polling loop (src/src/main.rs lines 227-242), run for `k`
iterations: each iteration re-executes the prepared statement with the
current cursor and renders the rows against the captured `columnNames`. -/
def csvLoop (columnNames : List String) (column : String) (tz : Option Int)
    (db : Nat → List String × List (String → Value)) :
    Nat → Nat → Except String (List CsvEvent × Nat)
  | 0, c => .ok ([], c)
  | k + 1, c =>
      match csvRows columnNames column tz c (db c).2 with
      | .error e => .error e
      | .ok r1 =>
          match csvLoop columnNames column tz db k r1.2 with
          | .error e => .error e
          | .ok r2 => .ok (r1.1 ++ r2.1, r2.2)

/-- CSV tail mode (src/src/main.rs lines 205-243): seed the cursor, run
the first execution capturing its column names and writing the header
record, then run the polling loop for `k` further iterations against the
captured column names.  The database is modelled as a function from the
cursor parameter to the result set's (column names, rows). -/
def tailCsv (seedVal : Value) (column : String) (tz : Option Int)
    (db : Nat → List String × List (String → Value)) (k : Nat) :
    Except String (List CsvEvent × Nat) :=
  match tailSeed seedVal with
  | .error e => .error e
  | .ok c0 =>
      match csvRows (db c0).1 column tz c0 (db c0).2 with
      | .error e => .error e
      | .ok r1 =>
          match csvLoop (db c0).1 column tz db k r1.2 with
          | .error e => .error e
          | .ok r2 => .ok (.headerRec (db c0).1 :: (r1.1 ++ r2.1), r2.2)

/-- Processing of one result set's rows in JSON tail mode: each row is
emitted as a JSON line, then the cursor is advanced. -/
def jsonRows (columnNames : List String) (column : String) (tz : Option Int) :
    Nat → List (String → Value) → Except String (List String × Nat)
  | c, [] => .ok ([], c)
  | c, row :: rest =>
      match emitLineJson columnNames row tz with
      | .error e => .error e
      | .ok line =>
          match getId column row with
          | .error e => .error e
          | .ok id =>
              match jsonRows columnNames column tz (observe c id) rest with
              | .error e => .error e
              | .ok r => .ok (line :: r.1, r.2)

/-- The JSON polling loop (src/src/main.rs lines 245-261), run for `k`
iterations; column names are re-read from each execution's result set. -/
def jsonLoop (column : String) (tz : Option Int)
    (db : Nat → List String × List (String → Value)) :
    Nat → Nat → Except String (List String × Nat)
  | 0, c => .ok ([], c)
  | k + 1, c =>
      match jsonRows (db c).1 column tz c (db c).2 with
      | .error e => .error e
      | .ok r1 =>
          match jsonLoop column tz db k r1.2 with
          | .error e => .error e
          | .ok r2 => .ok (r1.1 ++ r2.1, r2.2)

/-- JSON tail mode (src/src/main.rs lines 244-262): seed the cursor, then
run the polling loop for `k` iterations. -/
def tailJson (seedVal : Value) (column : String) (tz : Option Int)
    (db : Nat → List String × List (String → Value)) (k : Nat) :
    Except String (List String × Nat) :=
  match tailSeed seedVal with
  | .error e => .error e
  | .ok c0 => jsonLoop column tz db k c0

/-- Concrete database for witnesses: each poll returns one row whose
order-column value is one above the cursor parameter. -/
def dbIdsW : Nat → List Nat := fun c => [c + 1]

/-- Concrete two-column row for witnesses. -/
def rowIntW : String → Value := fun c => if c = "a" then .Int 1 else .NULL

/-- Concrete row holding a DateTime value for witnesses. -/
def rowDateW : String → Value := fun _ => .Date 2021 3 4 10 30 0 0

/-- Concrete tail database for witnesses: one `id` column, one row with
id 6 while the cursor is below 6, nothing afterwards. -/
def dbCsvW : Nat → List String × List (String → Value) :=
  fun c => (["id"], if c < 6 then [fun _ => Value.UInt 6] else [])

/-- Numeric value of a string of decimal digits (used to state that the
rendered decimal strings are exact). -/
def strDigitsVal (s : String) : Nat :=
  s.data.foldl (fun a c => a * 10 + (c.toNat - 48)) 0

/-- Signed numeric value of a decimal string with an optional leading
minus sign. -/
def decStrVal (s : String) : Int :=
  match s.data with
  | [] => 0
  | c :: rest =>
      if c = '-' then -((rest.foldl (fun a d => a * 10 + (d.toNat - 48)) 0 : Nat) : Int)
      else (strDigitsVal s : Int)

theorem observe_ge (c v : Nat) : c ≤ observe c v := by
  unfold observe; split <;> omega

theorem pollFold_ge (ids : List Nat) : ∀ c, c ≤ pollFold c ids := by
  induction ids with
  | nil => intro c; simp [pollFold]
  | cons i is ih =>
      intro c
      have h1 : c ≤ observe c i := observe_ge c i
      have h2 : observe c i ≤ pollFold (observe c i) is := ih (observe c i)
      have h3 : pollFold c (i :: is) = pollFold (observe c i) is := rfl
      omega

theorem csvRows_cursor_mono (rows : List (String → Value)) :
    ∀ (cols : List String) (column : String) (tz : Option Int) (c : Nat)
      (evs : List CsvEvent) (cf : Nat),
      csvRows cols column tz c rows = .ok (evs, cf) → c ≤ cf := by
  induction rows with
  | nil =>
      intro cols column tz c evs cf h
      simp only [csvRows] at h
      cases h
      exact Nat.le_refl c
  | cons row rest ih =>
      intro cols column tz c evs cf h
      simp only [csvRows] at h
      split at h
      · simp at h
      · rename_i cells hcells
        split at h
        · simp at h
        · rename_i id hid
          split at h
          · simp at h
          · rename_i r hrec
            cases h
            have h1 := ih cols column tz (observe c id) r.1 r.2 hrec
            have h2 := observe_ge c id
            omega

theorem csvLoop_cursor_mono (k : Nat) :
    ∀ (cols : List String) (column : String) (tz : Option Int)
      (db : Nat → List String × List (String → Value)) (c : Nat)
      (evs : List CsvEvent) (cf : Nat),
      csvLoop cols column tz db k c = .ok (evs, cf) → c ≤ cf := by
  induction k with
  | zero =>
      intro cols column tz db c evs cf h
      simp only [csvLoop] at h
      cases h
      exact Nat.le_refl c
  | succ k ih =>
      intro cols column tz db c evs cf h
      simp only [csvLoop] at h
      split at h
      · simp at h
      · rename_i r1 hr
        split at h
        · simp at h
        · rename_i r2 hl
          cases h
          have h1 := csvRows_cursor_mono (db c).2 cols column tz c r1.1 r1.2 hr
          have h2 := ih cols column tz db r1.2 r2.1 r2.2 hl
          omega

theorem jsonRows_cursor_mono (rows : List (String → Value)) :
    ∀ (cols : List String) (column : String) (tz : Option Int) (c : Nat)
      (out : List String) (cf : Nat),
      jsonRows cols column tz c rows = .ok (out, cf) → c ≤ cf := by
  induction rows with
  | nil =>
      intro cols column tz c out cf h
      simp only [jsonRows] at h
      cases h
      exact Nat.le_refl c
  | cons row rest ih =>
      intro cols column tz c out cf h
      simp only [jsonRows] at h
      split at h
      · simp at h
      · rename_i line hline
        split at h
        · simp at h
        · rename_i id hid
          split at h
          · simp at h
          · rename_i r hrec
            cases h
            have h1 := ih cols column tz (observe c id) r.1 r.2 hrec
            have h2 := observe_ge c id
            omega

theorem jsonLoop_cursor_mono (k : Nat) :
    ∀ (column : String) (tz : Option Int)
      (db : Nat → List String × List (String → Value)) (c : Nat)
      (out : List String) (cf : Nat),
      jsonLoop column tz db k c = .ok (out, cf) → c ≤ cf := by
  induction k with
  | zero =>
      intro column tz db c out cf h
      simp only [jsonLoop] at h
      cases h
      exact Nat.le_refl c
  | succ k ih =>
      intro column tz db c out cf h
      simp only [jsonLoop] at h
      split at h
      · simp at h
      · rename_i r1 hr
        split at h
        · simp at h
        · rename_i r2 hl
          cases h
          have h1 := jsonRows_cursor_mono (db c).2 (db c).1 column tz c r1.1 r1.2 hr
          have h2 := ih column tz db r1.2 r2.1 r2.2 hl
          omega

theorem rowPairs_ok_forall (cols : List String) (row : String → Value) (tz : Option Int) :
    ∀ pairs, rowPairs cols row tz = .ok pairs →
      ∀ c ∈ cols, ∃ v, to_json_value (row c) tz = .ok v := by
  induction cols with
  | nil => intro pairs h c hc; simp at hc
  | cons c0 rest ih =>
      intro pairs h c hc
      simp only [rowPairs] at h
      split at h
      · simp at h
      · rename_i v hv
        split at h
        · simp at h
        · rename_i tail htail
          rcases List.mem_cons.mp hc with rfl | hc2
          · exact ⟨v, hv⟩
          · exact ih tail htail c hc2

theorem renderRowCsv_ok_forall (cols : List String) (row : String → Value) (tz : Option Int) :
    ∀ cells, renderRowCsv cols row tz = .ok cells →
      ∀ c ∈ cols, ∃ v, to_csv_value (row c) tz = .ok v := by
  induction cols with
  | nil => intro cells h c hc; simp at hc
  | cons c0 rest ih =>
      intro cells h c hc
      simp only [renderRowCsv] at h
      split at h
      · simp at h
      · rename_i v hv
        split at h
        · simp at h
        · rename_i tail htail
          rcases List.mem_cons.mp hc with rfl | hc2
          · exact ⟨v, hv⟩
          · exact ih tail htail c hc2

theorem rowPairs_fst (cols : List String) (row : String → Value) (tz : Option Int) :
    ∀ pairs, rowPairs cols row tz = .ok pairs → pairs.map Prod.fst = cols := by
  induction cols with
  | nil => intro pairs h; simp only [rowPairs] at h; cases h; rfl
  | cons c rest ih =>
      intro pairs h
      simp only [rowPairs] at h
      split at h
      · simp at h
      · rename_i v hv
        split at h
        · simp at h
        · rename_i tail htail
          cases h
          simp [ih tail htail]

theorem mapInsert_append (acc : List (String × JVal)) (k : String) (v : JVal)
    (hk : ∀ e ∈ acc, e.1 ≠ k) : mapInsert acc k v = acc ++ [(k, v)] := by
  induction acc with
  | nil => rfl
  | cons e rest ih =>
      simp only [mapInsert]
      rw [if_neg (hk e (by simp))]
      rw [ih (fun e' he' => hk e' (by simp [he']))]
      simp

theorem mapCollect_go (pairs : List (String × JVal)) :
    ∀ acc : List (String × JVal),
      ((acc ++ pairs).map Prod.fst).Nodup →
      pairs.foldl (fun m e => mapInsert m e.1 e.2) acc = acc ++ pairs := by
  induction pairs with
  | nil => intro acc h; simp
  | cons e rest ih =>
      intro acc h
      have hsplit : (acc ++ [(e.1, e.2)]) ++ rest = acc ++ e :: rest := by simp
      have hknotin : ∀ e' ∈ acc, e'.1 ≠ e.1 := by
        intro e' he' heq
        have hmap : ((acc.map Prod.fst) ++ (e.1 :: rest.map Prod.fst)).Nodup := by
          simpa using h
        rcases List.nodup_append.mp hmap with ⟨_, _, hdisj⟩
        exact hdisj (heq ▸ List.mem_map_of_mem Prod.fst he') (by simp)
      simp only [List.foldl_cons]
      rw [mapInsert_append acc e.1 e.2 hknotin]
      rw [ih (acc ++ [(e.1, e.2)]) (by rw [hsplit]; exact h)]
      rw [hsplit]

theorem mapCollect_eq_self (pairs : List (String × JVal))
    (h : (pairs.map Prod.fst).Nodup) : mapCollect pairs = pairs := by
  have hgo := mapCollect_go pairs [] (by simpa using h)
  simpa [mapCollect] using hgo

/-- C3: the per-row cursor update of the tail loops returns the maximum of
the current cursor and the candidate value, is idempotent, and never
returns less than the input cursor. -/
theorem C3_observe_max (c v : Nat) :
    observe c v = max c v ∧ observe (observe c v) v = observe c v ∧ c ≤ observe c v := by
  simp only [observe, Nat.max_def]
  repeat' split
  all_goals omega

/-- C4: assuming every poll returns only rows whose order-column value is
strictly greater than the cursor it was queried with, the cursor never
decreases from one loop iteration to the next and no returned row's value
is less than or equal to the cursor at the time of its query; moreover the
cursor threaded through the embedded CSV and JSON loops never decreases. -/
theorem C4_tail_cursor_monotone (db : Nat → List Nat) (seed : Nat)
    (hdb : ∀ c, ∀ v ∈ db c, c < v) :
    (∀ n, cursorSeq db seed n ≤ cursorSeq db seed (n + 1)) ∧
    (∀ n, ∀ v ∈ db (cursorSeq db seed n), ¬ v ≤ cursorSeq db seed n) ∧
    (∀ (cols : List String) (column : String) (tz : Option Int) (c : Nat)
       (rows : List (String → Value)) (evs : List CsvEvent) (cf : Nat),
       csvRows cols column tz c rows = .ok (evs, cf) → c ≤ cf) ∧
    (∀ (column : String) (tz : Option Int)
       (db2 : Nat → List String × List (String → Value)) (k c : Nat)
       (out : List String) (cf : Nat),
       jsonLoop column tz db2 k c = .ok (out, cf) → c ≤ cf) := by
  refine ⟨?_, ?_, ?_, ?_⟩
  · intro n
    exact pollFold_ge (db (cursorSeq db seed n)) (cursorSeq db seed n)
  · intro n v hv
    have := hdb (cursorSeq db seed n) v hv
    omega
  · intro cols column tz c rows evs cf h
    exact csvRows_cursor_mono rows cols column tz c evs cf h
  · intro column tz db2 k c out cf h
    exact jsonLoop_cursor_mono k column tz db2 c out cf h

theorem C4_witness :
    (∀ c, ∀ v ∈ dbIdsW c, c < v) ∧
    ((∀ n, cursorSeq dbIdsW 0 n ≤ cursorSeq dbIdsW 0 (n + 1)) ∧
     (∀ n, ∀ v ∈ dbIdsW (cursorSeq dbIdsW 0 n), ¬ v ≤ cursorSeq dbIdsW 0 n) ∧
     (∀ (cols : List String) (column : String) (tz : Option Int) (c : Nat)
        (rows : List (String → Value)) (evs : List CsvEvent) (cf : Nat),
        csvRows cols column tz c rows = .ok (evs, cf) → c ≤ cf) ∧
     (∀ (column : String) (tz : Option Int)
        (db2 : Nat → List String × List (String → Value)) (k c : Nat)
        (out : List String) (cf : Nat),
        jsonLoop column tz db2 k c = .ok (out, cf) → c ≤ cf)) := by
  have hW : ∀ c, ∀ v ∈ dbIdsW c, c < v := by
    intro c v hv
    simp [dbIdsW] at hv
    omega
  exact ⟨hW, C4_tail_cursor_monotone dbIdsW 0 hW⟩

/-- C6: the DateTime value (2021, 3, 4, 10, 30, 0, 0) under a timezone
offset of +32400 seconds normalizes to "2021-03-04T10:30:00+09:00" in
both the JSON and the CSV target. -/
theorem C6_datetime_rfc3339 :
    to_json_value (.Date 2021 3 4 10 30 0 0) (some 32400) =
      .ok (.str "2021-03-04T10:30:00+09:00") ∧
    to_csv_value (.Date 2021 3 4 10 30 0 0) (some 32400) =
      .ok "2021-03-04T10:30:00+09:00" :=
  ⟨rfl, rfl⟩

/-- C8 counterexample: normalizing a NaN float in CSV mode is not fatal,
it yields the cell "NaN"; only the JSON path aborts (the claim asserts a
fatal error in both output formats). -/
theorem C8_nan_csv_not_fatal :
    to_csv_value (.Float .nan) none = .ok "NaN" ∧
    to_json_value (.Float .nan) none = .error unwrapNoneMsg :=
  ⟨rfl, rfl⟩

/-- C8 amended: for every non-finite float (NaN or infinite), JSON
normalization is fatal, while CSV normalization succeeds and yields the
float's Display rendering. -/
theorem C8_nonfinite_float (x : F64) (tz : Option Int) (hx : x.isFinite = false) :
    to_json_value (.Float x) tz = .error unwrapNoneMsg ∧
    to_csv_value (.Float x) tz = .ok x.display := by
  constructor
  · simp [to_json_value, JNumber.from_f64, hx]
  · rfl

theorem C8_witness :
    F64.isFinite .nan = false ∧
    (to_json_value (.Float .nan) (some 0) = .error unwrapNoneMsg ∧
     to_csv_value (.Float .nan) (some 0) = .ok (F64.display .nan)) :=
  ⟨rfl, C8_nonfinite_float .nan (some 0) rfl⟩

/-- C1: every line emitted in JSON mode is the compact serialization of a
single self-contained JSON object (followed by the newline byte) whose
keys are exactly the result set's column names, in column order. -/
theorem C1_json_line_shape (cols : List String) (row : String → Value) (tz : Option Int)
    (l : String) (hnd : cols.Nodup) (h : emitLineJson cols row tz = .ok l) :
    ∃ entries : List (String × JVal),
      l = serializeObj entries ++ "\n" ∧ entries.map Prod.fst = cols := by
  cases hE : rowPairs cols row tz with
  | error e =>
      have herr : emitLineJson cols row tz = .error e := by
        simp [emitLineJson, renderRowJson, hE]
      rw [herr] at h
      simp at h
  | ok pairs =>
      have hemit : emitLineJson cols row tz = .ok (serializeObj (mapCollect pairs) ++ "\n") := by
        simp [emitLineJson, renderRowJson, hE]
      rw [hemit] at h
      cases h
      have hfst := rowPairs_fst cols row tz pairs hE
      have hmc : mapCollect pairs = pairs := mapCollect_eq_self pairs (by rw [hfst]; exact hnd)
      exact ⟨pairs, by rw [hmc], hfst⟩

theorem C1_witness :
    (["a", "b"] : List String).Nodup ∧
    emitLineJson ["a", "b"] rowIntW none = .ok "\x7b\"a\":1,\"b\":null\x7d\n" ∧
    (∃ entries : List (String × JVal),
      "\x7b\"a\":1,\"b\":null\x7d\n" = serializeObj entries ++ "\n" ∧
      entries.map Prod.fst = ["a", "b"]) := by
  have hnd : (["a", "b"] : List String).Nodup := by decide
  have hok : emitLineJson ["a", "b"] rowIntW none = .ok "\x7b\"a\":1,\"b\":null\x7d\n" := rfl
  exact ⟨hnd, hok, C1_json_line_shape ["a", "b"] rowIntW none _ hnd hok⟩

/-- C5: a DateTime value with no timezone offset supplied makes
normalization fatal in both targets, and a row containing such a value
produces no output line at all (the whole rendering of that row errors,
there is no partial-row recovery). -/
theorem C5_datetime_no_tz_fatal (y mo d h mi s us : Nat) (cols : List String)
    (row : String → Value) (c : String) (hc : c ∈ cols)
    (hrow : row c = .Date y mo d h mi s us) :
    to_json_value (.Date y mo d h mi s us) none = .error tzErrMsg ∧
    to_csv_value (.Date y mo d h mi s us) none = .error tzErrMsg ∧
    (∃ e, emitLineJson cols row none = .error e) ∧
    (∃ e, renderRowCsv cols row none = .error e) := by
  refine ⟨rfl, rfl, ?_, ?_⟩
  · cases hE : rowPairs cols row none with
    | error e => exact ⟨e, by simp [emitLineJson, renderRowJson, hE]⟩
    | ok pairs =>
        exfalso
        obtain ⟨v, hv⟩ := rowPairs_ok_forall cols row none pairs hE c hc
        rw [hrow] at hv
        simp [to_json_value] at hv
  · cases hE : renderRowCsv cols row none with
    | error e => exact ⟨e, rfl⟩
    | ok cells =>
        exfalso
        obtain ⟨v, hv⟩ := renderRowCsv_ok_forall cols row none cells hE c hc
        rw [hrow] at hv
        simp [to_csv_value] at hv

theorem C5_witness :
    ("d" ∈ ["d"] : Prop) ∧ rowDateW "d" = Value.Date 2021 3 4 10 30 0 0 ∧
    (to_json_value (.Date 2021 3 4 10 30 0 0) none = .error tzErrMsg ∧
     to_csv_value (.Date 2021 3 4 10 30 0 0) none = .error tzErrMsg ∧
     (∃ e, emitLineJson ["d"] rowDateW none = .error e) ∧
     (∃ e, renderRowCsv ["d"] rowDateW none = .error e)) :=
  ⟨by simp, rfl, C5_datetime_no_tz_fatal 2021 3 4 10 30 0 0 ["d"] rowDateW "d" (by simp) rfl⟩

/-- C9: with an empty source table the seeding aggregate is NULL, whose
conversion to the u32 cursor fails fatally, so tail mode errors before
any polling iteration in both formats. -/
theorem C9_null_seed_fatal :
    tailSeed .NULL = .error convErrMsg ∧
    (∀ (column : String) (tz : Option Int)
       (db : Nat → List String × List (String → Value)) (k : Nat),
       tailJson .NULL column tz db k = .error convErrMsg) ∧
    (∀ (column : String) (tz : Option Int)
       (db : Nat → List String × List (String → Value)) (k : Nat),
       tailCsv .NULL column tz db k = .error convErrMsg) :=
  ⟨rfl, fun _ _ _ _ => rfl, fun _ _ _ _ => rfl⟩

theorem digitsVal_append_digit (ds : List Nat) (d : Nat) :
    digitsVal (ds ++ [d]) = digitsVal ds * 10 + d := by
  simp [digitsVal, List.foldl_append]

theorem natDecDigits_spec (fuel : Nat) :
    ∀ n, n ≤ fuel →
      digitsVal (natDecDigits (fuel + 1) n) = n ∧
      ∀ d ∈ natDecDigits (fuel + 1) n, d < 10 := by
  induction fuel with
  | zero =>
      intro n hn
      have hz : n = 0 := Nat.le_zero.mp hn
      subst hz
      simp [natDecDigits, digitsVal]
  | succ fuel ih =>
      intro n hn
      by_cases h10 : n < 10
      · constructor
        · simp [natDecDigits, h10, digitsVal]
        · intro d hd
          simp [natDecDigits, h10] at hd
          omega
      · have hdiv : n / 10 ≤ fuel := by
          have := Nat.div_lt_self (by omega : 0 < n) (by omega : (1 : Nat) < 10)
          omega
        have hrec := ih (n / 10) hdiv
        have heq : natDecDigits (fuel + 1 + 1) n =
            natDecDigits (fuel + 1) (n / 10) ++ [n % 10] := by
          simp [natDecDigits, h10]
        constructor
        · rw [heq, digitsVal_append_digit, hrec.1]
          omega
        · intro d hd
          rw [heq] at hd
          rcases List.mem_append.mp hd with h1 | h2
          · exact hrec.2 d h1
          · simp at h2
            omega

theorem natDigits_spec (n : Nat) :
    digitsVal (natDigits n) = n ∧ ∀ d ∈ natDigits n, d < 10 :=
  natDecDigits_spec n n (Nat.le_refl n)

theorem natDigits_ne_nil (n : Nat) : natDigits n ≠ [] := by
  unfold natDigits natDecDigits
  split <;> simp

theorem digitChar_toNat : ∀ d, d < 10 → (digitChar d).toNat = 48 + d := by decide

theorem foldl_digitChar (ds : List Nat) :
    ∀ a, (∀ d ∈ ds, d < 10) →
      (ds.map digitChar).foldl (fun x c => x * 10 + (c.toNat - 48)) a =
      ds.foldl (fun x d => x * 10 + d) a := by
  induction ds with
  | nil => intro a _; rfl
  | cons d rest ih =>
      intro a hd
      simp only [List.map_cons, List.foldl_cons]
      rw [digitChar_toNat d (hd d (by simp))]
      have harith : a * 10 + (48 + d - 48) = a * 10 + d := by omega
      rw [harith]
      exact ih _ (fun d' h' => hd d' (by simp [h']))

theorem strDigitsVal_strOfDigits (ds : List Nat) (h : ∀ d ∈ ds, d < 10) :
    strDigitsVal (strOfDigits ds) = digitsVal ds := by
  unfold strDigitsVal strOfDigits digitsVal
  exact foldl_digitChar ds 0 h

theorem decStrVal_mk_cons (c : Char) (cs : List Char) :
    decStrVal (String.mk (c :: cs)) =
      if c = '-' then -((cs.foldl (fun a d => a * 10 + (d.toNat - 48)) 0 : Nat) : Int)
      else (strDigitsVal (String.mk (c :: cs)) : Int) := rfl

theorem decStrVal_strOfDigits (ds : List Nat) (hne : ds ≠ []) (h : ∀ d ∈ ds, d < 10) :
    decStrVal (strOfDigits ds) = (digitsVal ds : Int) := by
  cases ds with
  | nil => exact absurd rfl hne
  | cons d0 rest =>
      have hd0 : (digitChar d0).toNat = 48 + d0 := digitChar_toNat d0 (h d0 (by simp))
      have hneq : digitChar d0 ≠ '-' := by
        intro heq
        have h1 := congrArg Char.toNat heq
        rw [hd0] at h1
        have h2 : ('-').toNat = 45 := rfl
        omega
      have hmk : decStrVal (strOfDigits (d0 :: rest)) =
          decStrVal (String.mk (digitChar d0 :: rest.map digitChar)) := rfl
      rw [hmk, decStrVal_mk_cons, if_neg hneq]
      exact congrArg (Nat.cast : Nat → Int) (strDigitsVal_strOfDigits (d0 :: rest) h)

theorem natDecStr_val (n : Nat) : strDigitsVal (natDecStr n) = n := by
  have hs := natDigits_spec n
  have hval := strDigitsVal_strOfDigits (natDigits n) hs.2
  rw [natDecStr, hval, hs.1]

theorem decStrVal_natDecStr (n : Nat) : decStrVal (natDecStr n) = (n : Int) := by
  have hs := natDigits_spec n
  have hval := decStrVal_strOfDigits (natDigits n) (natDigits_ne_nil n) hs.2
  rw [natDecStr, hval, hs.1]

theorem decStrVal_neg (s : String) :
    decStrVal (String.mk ('-' :: s.data)) = -(strDigitsVal s : Int) := by
  rw [decStrVal_mk_cons, if_pos rfl]
  rfl

theorem decStrVal_intDecStr (n : Int) : decStrVal (intDecStr n) = n := by
  unfold intDecStr
  by_cases hneg : n < 0
  · rw [if_pos hneg]
    have h1 : decStrVal ("-" ++ natDecStr (-n).toNat) =
        -(strDigitsVal (natDecStr (-n).toNat) : Int) :=
      decStrVal_neg (natDecStr (-n).toNat)
    rw [h1, natDecStr_val]
    omega
  · rw [if_neg hneg]
    rw [decStrVal_natDecStr]
    omega

theorem from_i64_toInt (n : Int) : (JNumber.from_i64 n).toInt = some n := by
  unfold JNumber.from_i64
  by_cases h : n < 0
  · rw [if_pos h]
    rfl
  · rw [if_neg h]
    simp only [JNumber.toInt, Option.some.injEq]
    omega

/-- C7: signed and unsigned 64-bit integers normalize to JSON numbers
that are exactly the integer (stored in the integer forms of the number
type, never through a float) and to CSV cells that are their exact
decimal representation (parsing the cell back yields the integer). -/
theorem C7_integer_exactness (n : Int) (u : Nat) (tz : Option Int)
    (_hn1 : -(2 ^ 63) ≤ n) (_hn2 : n < 2 ^ 63) (_hu : u < 2 ^ 64) :
    (to_json_value (.Int n) tz = .ok (.num (JNumber.from_i64 n)) ∧
     (JNumber.from_i64 n).toInt = some n) ∧
    (to_json_value (.UInt u) tz = .ok (.num (.posInt u)) ∧
     (JNumber.posInt u).toInt = some (u : Int)) ∧
    (to_csv_value (.Int n) tz = .ok (intDecStr n) ∧ decStrVal (intDecStr n) = n) ∧
    (to_csv_value (.UInt u) tz = .ok (natDecStr u) ∧ decStrVal (natDecStr u) = (u : Int)) :=
  ⟨⟨rfl, from_i64_toInt n⟩, ⟨rfl, rfl⟩,
   ⟨rfl, decStrVal_intDecStr n⟩, ⟨rfl, decStrVal_natDecStr u⟩⟩

theorem C7_witness :
    (-(2 ^ 63) ≤ (-907 : Int)) ∧ ((-907 : Int) < 2 ^ 63) ∧ ((12345 : Nat) < 2 ^ 64) ∧
    ((to_json_value (.Int (-907)) none = .ok (.num (JNumber.from_i64 (-907))) ∧
      (JNumber.from_i64 (-907)).toInt = some (-907)) ∧
     (to_json_value (.UInt 12345) none = .ok (.num (.posInt 12345)) ∧
      (JNumber.posInt 12345).toInt = some ((12345 : Nat) : Int)) ∧
     (to_csv_value (.Int (-907)) none = .ok (intDecStr (-907)) ∧
      decStrVal (intDecStr (-907)) = -907) ∧
     (to_csv_value (.UInt 12345) none = .ok (natDecStr 12345) ∧
      decStrVal (natDecStr 12345) = ((12345 : Nat) : Int))) :=
  ⟨by norm_num, by norm_num, by norm_num,
   C7_integer_exactness (-907) 12345 none (by norm_num) (by norm_num) (by norm_num)⟩

set_option maxHeartbeats 1000000 in
theorem b64_spec : ∀ i, i < 64 → b64Index (b64Char i) = some i := by decide

theorem b64Char_ne_eq : ∀ i, i < 64 → b64Char i ≠ '=' := by decide

theorem b64Char_mem : ∀ i, i < 64 → b64Char i ∈ b64Alphabet := by decide

theorem decode_encode : ∀ bs : List Nat, (∀ x ∈ bs, x < 256) →
    decodeChunks (encodeChunks bs) = some bs
  | [], _ => rfl
  | [b1], h => by
      have hb1 : b1 < 256 := h b1 (by simp)
      have h1 := b64_spec (b1 / 4) (by omega)
      have h2 := b64_spec (b1 % 4 * 16) (by omega)
      simp only [encodeChunks, decodeChunks, h1, h2]
      simp
      omega
  | [b1, b2], h => by
      have hb1 : b1 < 256 := h b1 (by simp)
      have hb2 : b2 < 256 := h b2 (by simp)
      have h1 := b64_spec (b1 / 4) (by omega)
      have h2 := b64_spec (b1 % 4 * 16 + b2 / 16) (by omega)
      have h3 := b64_spec (b2 % 16 * 4) (by omega)
      have hne3 := b64Char_ne_eq (b2 % 16 * 4) (by omega)
      simp only [encodeChunks, decodeChunks, h1, h2, h3]
      simp [hne3]
      constructor
      · omega
      · omega
  | b1 :: b2 :: b3 :: rest, h => by
      have hb1 : b1 < 256 := h b1 (by simp)
      have hb2 : b2 < 256 := h b2 (by simp)
      have hb3 : b3 < 256 := h b3 (by simp)
      have ih := decode_encode rest (fun x hx => h x (by simp [hx]))
      have h1 := b64_spec (b1 / 4) (by omega)
      have h2 := b64_spec (b1 % 4 * 16 + b2 / 16) (by omega)
      have h3 := b64_spec (b2 % 16 * 4 + b3 / 64) (by omega)
      have h4 := b64_spec (b3 % 64) (by omega)
      have hne3 := b64Char_ne_eq (b2 % 16 * 4 + b3 / 64) (by omega)
      have hne4 := b64Char_ne_eq (b3 % 64) (by omega)
      simp only [encodeChunks, decodeChunks, h1, h2, h3, h4]
      simp [hne3, hne4, ih]
      refine ⟨by omega, by omega, by omega⟩

theorem encodeChunks_len : ∀ bs : List Nat, (encodeChunks bs).length % 4 = 0
  | [] => rfl
  | [_] => by simp [encodeChunks]
  | [_, _] => by simp [encodeChunks]
  | _ :: _ :: _ :: rest => by
      have ih := encodeChunks_len rest
      simp only [encodeChunks, List.length_cons]
      omega

theorem encodeChunks_mem : ∀ bs : List Nat, (∀ x ∈ bs, x < 256) →
    ∀ c ∈ encodeChunks bs, c ∈ b64Alphabet ∨ c = '='
  | [], _, c, hc => by simp [encodeChunks] at hc
  | [b1], h, c, hc => by
      have hb1 : b1 < 256 := h b1 (by simp)
      simp only [encodeChunks, List.mem_cons, List.not_mem_nil, or_false] at hc
      rcases hc with rfl | rfl | rfl | rfl
      · exact Or.inl (b64Char_mem _ (by omega))
      · exact Or.inl (b64Char_mem _ (by omega))
      · exact Or.inr rfl
      · exact Or.inr rfl
  | [b1, b2], h, c, hc => by
      have hb1 : b1 < 256 := h b1 (by simp)
      have hb2 : b2 < 256 := h b2 (by simp)
      simp only [encodeChunks, List.mem_cons, List.not_mem_nil, or_false] at hc
      rcases hc with rfl | rfl | rfl | rfl
      · exact Or.inl (b64Char_mem _ (by omega))
      · exact Or.inl (b64Char_mem _ (by omega))
      · exact Or.inl (b64Char_mem _ (by omega))
      · exact Or.inr rfl
  | b1 :: b2 :: b3 :: rest, h, c, hc => by
      have hb1 : b1 < 256 := h b1 (by simp)
      have hb2 : b2 < 256 := h b2 (by simp)
      have hb3 : b3 < 256 := h b3 (by simp)
      have ih := encodeChunks_mem rest (fun x hx => h x (by simp [hx]))
      simp only [encodeChunks, List.mem_cons] at hc
      rcases hc with rfl | rfl | rfl | rfl | hrest
      · exact Or.inl (b64Char_mem _ (by omega))
      · exact Or.inl (b64Char_mem _ (by omega))
      · exact Or.inl (b64Char_mem _ (by omega))
      · exact Or.inl (b64Char_mem _ (by omega))
      · exact ih c hrest

/-- C2: a non-null byte value normalizes (in both targets) to the UTF-8
decoded string when the bytes are valid UTF-8, and otherwise to a
standard-alphabet padded base64 string whose decoding is exactly the
original bytes. -/
theorem C2_bytes_normalization (bs : List Nat) (tz : Option Int)
    (hbs : ∀ x ∈ bs, x < 256) :
    (∀ s, from_utf8 bs = some s →
       to_json_value (.Bytes bs) tz = .ok (.str s) ∧
       to_csv_value (.Bytes bs) tz = .ok s) ∧
    (from_utf8 bs = none →
       to_json_value (.Bytes bs) tz = .ok (.str (base64_encode bs)) ∧
       to_csv_value (.Bytes bs) tz = .ok (base64_encode bs) ∧
       base64_decode (base64_encode bs) = some bs ∧
       (base64_encode bs).data.length % 4 = 0 ∧
       ∀ c ∈ (base64_encode bs).data, c ∈ b64Alphabet ∨ c = '=') := by
  constructor
  · intro s hs
    constructor
    · simp [to_json_value, hs]
    · simp [to_csv_value, hs]
  · intro hn
    refine ⟨by simp [to_json_value, hn], by simp [to_csv_value, hn], ?_, ?_, ?_⟩
    · exact decode_encode bs hbs
    · exact encodeChunks_len bs
    · exact encodeChunks_mem bs hbs

theorem C2_witness :
    (∀ x ∈ [255, 0, 1], x < 256) ∧
    ((∀ s, from_utf8 [255, 0, 1] = some s →
        to_json_value (.Bytes [255, 0, 1]) none = .ok (.str s) ∧
        to_csv_value (.Bytes [255, 0, 1]) none = .ok s) ∧
     (from_utf8 [255, 0, 1] = none →
        to_json_value (.Bytes [255, 0, 1]) none = .ok (.str (base64_encode [255, 0, 1])) ∧
        to_csv_value (.Bytes [255, 0, 1]) none = .ok (base64_encode [255, 0, 1]) ∧
        base64_decode (base64_encode [255, 0, 1]) = some [255, 0, 1] ∧
        (base64_encode [255, 0, 1]).data.length % 4 = 0 ∧
        ∀ c ∈ (base64_encode [255, 0, 1]).data, c ∈ b64Alphabet ∨ c = '=')) :=
  ⟨by decide, C2_bytes_normalization [255, 0, 1] none (by decide)⟩

theorem csvRows_events (rows : List (String → Value)) :
    ∀ (cols : List String) (column : String) (tz : Option Int) (c : Nat)
      (evs : List CsvEvent) (cf : Nat),
      csvRows cols column tz c rows = .ok (evs, cf) →
      ∀ e ∈ evs, ∃ row cells, e = CsvEvent.dataRec cells ∧
        renderRowCsv cols row tz = .ok cells := by
  induction rows with
  | nil =>
      intro cols column tz c evs cf h e he
      simp only [csvRows] at h
      cases h
      simp at he
  | cons row rest ih =>
      intro cols column tz c evs cf h e he
      simp only [csvRows] at h
      split at h
      · simp at h
      · rename_i cells hcells
        split at h
        · simp at h
        · rename_i id hid
          split at h
          · simp at h
          · rename_i r hrec
            cases h
            rcases List.mem_cons.mp he with rfl | hmem
            · exact ⟨row, cells, rfl, hcells⟩
            · exact ih cols column tz (observe c id) r.1 r.2 hrec e hmem

theorem csvLoop_events (k : Nat) :
    ∀ (cols : List String) (column : String) (tz : Option Int)
      (db : Nat → List String × List (String → Value)) (c : Nat)
      (evs : List CsvEvent) (cf : Nat),
      csvLoop cols column tz db k c = .ok (evs, cf) →
      ∀ e ∈ evs, ∃ row cells, e = CsvEvent.dataRec cells ∧
        renderRowCsv cols row tz = .ok cells := by
  induction k with
  | zero =>
      intro cols column tz db c evs cf h e he
      simp only [csvLoop] at h
      cases h
      simp at he
  | succ k ih =>
      intro cols column tz db c evs cf h e he
      simp only [csvLoop] at h
      split at h
      · simp at h
      · rename_i r1 hr1
        split at h
        · simp at h
        · rename_i r2 hl2
          cases h
          rcases List.mem_append.mp he with h1 | h2
          · exact csvRows_events (db c).2 cols column tz c r1.1 r1.2 hr1 e h1
          · exact ih cols column tz db r1.2 r2.1 r2.2 hl2 e h2

theorem filter_isHeader_eq_nil (evs : List CsvEvent)
    (h : ∀ e ∈ evs, CsvEvent.isHeader e = false) :
    evs.filter CsvEvent.isHeader = [] := by
  induction evs with
  | nil => rfl
  | cons e rest ih =>
      have he := h e (by simp)
      simp only [List.filter_cons, he]
      simp only [Bool.false_eq_true, if_false]
      exact ih (fun e' he' => h e' (by simp [he']))

/-- C10: in CSV tail mode the header record is written exactly once, as
the first record, holding the column names captured at the first query
execution; every other record of every polling cycle is a data row
rendered against those captured column names. -/
theorem C10_csv_header_once (seedVal : Value) (column : String) (tz : Option Int)
    (db : Nat → List String × List (String → Value)) (k : Nat)
    (evs : List CsvEvent) (cf : Nat)
    (h : tailCsv seedVal column tz db k = .ok (evs, cf)) :
    ∃ c0, tailSeed seedVal = .ok c0 ∧
      evs.head? = some (.headerRec (db c0).1) ∧
      evs.filter CsvEvent.isHeader = [.headerRec (db c0).1] ∧
      ∀ e ∈ evs, e = CsvEvent.headerRec (db c0).1 ∨
        ∃ row cells, e = CsvEvent.dataRec cells ∧
          renderRowCsv (db c0).1 row tz = .ok cells := by
  simp only [tailCsv] at h
  split at h
  · simp at h
  · rename_i c0 hseed
    split at h
    · simp at h
    · rename_i r1 hr1
      split at h
      · simp at h
      · rename_i r2 hl2
        cases h
        have hdata : ∀ e ∈ r1.1 ++ r2.1, ∃ row cells,
            e = CsvEvent.dataRec cells ∧ renderRowCsv (db c0).1 row tz = .ok cells := by
          intro e he
          rcases List.mem_append.mp he with h1 | h2
          · exact csvRows_events (db c0).2 (db c0).1 column tz c0 r1.1 r1.2 hr1 e h1
          · exact csvLoop_events k (db c0).1 column tz db r1.2 r2.1 r2.2 hl2 e h2
        have hnohead : ∀ e ∈ r1.1 ++ r2.1, CsvEvent.isHeader e = false := by
          intro e he
          obtain ⟨row, cells, rfl, _⟩ := hdata e he
          rfl
        have hf : (r1.1 ++ r2.1).filter CsvEvent.isHeader = [] :=
          filter_isHeader_eq_nil _ hnohead
        refine ⟨c0, hseed, rfl, ?_, ?_⟩
        · simp [List.filter_cons, CsvEvent.isHeader, hf]
        · intro e he
          rcases List.mem_cons.mp he with rfl | hmem
          · exact Or.inl rfl
          · exact Or.inr (hdata e hmem)

theorem C10_witness :
    tailCsv (.UInt 5) "id" none dbCsvW 2 =
      .ok ([.headerRec ["id"], .dataRec ["6"]], 6) ∧
    (∃ c0, tailSeed (Value.UInt 5) = .ok c0 ∧
      ([CsvEvent.headerRec ["id"], CsvEvent.dataRec ["6"]] : List CsvEvent).head? =
        some (.headerRec (dbCsvW c0).1) ∧
      ([CsvEvent.headerRec ["id"], CsvEvent.dataRec ["6"]] : List CsvEvent).filter
        CsvEvent.isHeader = [.headerRec (dbCsvW c0).1] ∧
      ∀ e ∈ ([CsvEvent.headerRec ["id"], CsvEvent.dataRec ["6"]] : List CsvEvent),
        e = CsvEvent.headerRec (dbCsvW c0).1 ∨
        ∃ row cells, e = CsvEvent.dataRec cells ∧
          renderRowCsv (dbCsvW c0).1 row none = .ok cells) := by
  have hok : tailCsv (.UInt 5) "id" none dbCsvW 2 =
      .ok ([.headerRec ["id"], .dataRec ["6"]], 6) := rfl
  exact ⟨hok, C10_csv_header_once (.UInt 5) "id" none dbCsvW 2 _ _ hok⟩

end Rows
